import Mathlib

/-!
Shallow embedding of the `repository_statistics` crate
(`src/source.rs`, `src/repository.rs`, `src/data.rs`, `src/errors.rs`,
`src/embedding.rs`), with theorems checking the specification's claims.

Modelling conventions:
* `f32` values are modelled by `FVal`: either a rational magnitude or one of
  the IEEE non-finite values NaN / +Inf / -Inf.  Rounding of finite results is
  abstracted (rationals are exact); the NaN/Inf propagation rules of the
  operations used by the crate (`/`, `*`, `>`, `==`, unary `-`) are modelled
  faithfully.
* `i32`/`i64` counters are modelled by `Int`.  The two explicit `as` casts in
  the sources (`len() as i32`, `stats.code as i64`) are modelled by exact
  two's-complement truncation (`i32cast`, `i64cast`); `try_into` for the file
  size is modelled by `tryIntoI64`, which rejects values outside `i64` range.
* The git collaborator (libgit2) is modelled by a `MiningEnv`: the combined
  result of `Repository::open` + `revwalk()` + `push_head()` + commit lookup
  is a single `Except` value `walk` holding the list of commits the revwalk
  enumerates (all commits reachable from head); each commit carries the delta
  list of the tree-diff against its first parent (`none` for a root commit,
  i.e. `parent_count() == 0`), the author name and the author timestamp.
* The tokei collaborator is modelled by the `reports` field (language name
  with its per-file reports), the file system by `fileContents`, and the
  SHA-256 digest by the abstract `hashFn` field (no claim constrains digests).
* Rust panics (`expect`, `unwrap`) are modelled with `PanicOr` / `Option`.
  In particular the chrono conversion
  `NaiveDateTime::from_timestamp_opt(time.seconds(), 0).unwrap()` of the
  contributor walk is modelled by `fromTimestampOpt`, whose `None` (an author
  timestamp outside chrono's representable range) panics at the call site.
* `HashMap` iteration order (used by `Contributor::get_git_contributors`) is
  not stable across runs; it is modelled by an explicit order parameter
  `perm` listing the keys in the order the iteration yields them.
-/

/-- Model of an `f32` value: a rational magnitude or a non-finite value. -/
inductive FVal where
  | nan
  | inf
  | ninf
  | fin (q : ℚ)
deriving DecidableEq, Repr

/-- IEEE negation for the modelled `f32` values. -/
def fneg : FVal → FVal
  | .nan => .nan
  | .inf => .ninf
  | .ninf => .inf
  | .fin q => .fin (-q)

/-- IEEE division for the modelled `f32` values (finite quotients exact). -/
def fdiv : FVal → FVal → FVal
  | .nan, _ => .nan
  | _, .nan => .nan
  | .fin a, .fin b =>
    if b = 0 then (if a = 0 then .nan else if 0 < a then .inf else .ninf) else .fin (a / b)
  | .fin _, .inf => .fin 0
  | .fin _, .ninf => .fin 0
  | .inf, .fin b => if 0 ≤ b then .inf else .ninf
  | .ninf, .fin b => if 0 ≤ b then .ninf else .inf
  | .inf, _ => .nan
  | .ninf, _ => .nan

/-- IEEE multiplication for the modelled `f32` values (finite products exact). -/
def fmul : FVal → FVal → FVal
  | .nan, _ => .nan
  | _, .nan => .nan
  | .fin a, .fin b => .fin (a * b)
  | .inf, .fin b => if b = 0 then .nan else if 0 < b then .inf else .ninf
  | .fin a, .inf => if a = 0 then .nan else if 0 < a then .inf else .ninf
  | .ninf, .fin b => if b = 0 then .nan else if 0 < b then .ninf else .inf
  | .fin a, .ninf => if a = 0 then .nan else if 0 < a then .ninf else .inf
  | .inf, .inf => .inf
  | .inf, .ninf => .ninf
  | .ninf, .inf => .ninf
  | .ninf, .ninf => .inf

/-- IEEE strict greater-than (`>` on `f32`): false whenever NaN is involved. -/
def fgt : FVal → FVal → Bool
  | .fin a, .fin b => decide (b < a)
  | .inf, .fin _ => true
  | .inf, .ninf => true
  | .fin _, .ninf => true
  | _, _ => false

/-- IEEE equality (`==` on `f32`): false whenever NaN is involved. -/
def fbeq : FVal → FVal → Bool
  | .fin a, .fin b => decide (a = b)
  | .inf, .inf => true
  | .ninf, .ninf => true
  | _, _ => false

/-- True exactly on finite values. -/
def FVal.isFin : FVal → Bool
  | .fin _ => true
  | _ => false

/-- The error enum of `src/errors.rs` (payloads elided; the constructor
identifies the failed stage, which is all the claims need). -/
inductive SourceCodeError where
  | serializationError
  | qdrantError
  | gitError
  | conversionError
  | fileReadError
  | filePathError
deriving DecidableEq, Repr

/-- Result of Rust code that may panic (`expect` / `unwrap`). -/
inductive PanicOr (α : Type) where
  | panicked
  | ok (a : α)
deriving DecidableEq, Repr

/-- `Statistics` of `src/data.rs`. -/
structure Statistics where
  size : Int
  loc : Int
  num_files : Int
  num_commits : Int
  frequency : FVal
deriving DecidableEq, Repr

/-- `Statistics::new()`. -/
def statisticsNew : Statistics :=
  { size := 0, loc := 0, num_files := 0, num_commits := 0, frequency := .fin 0 }

/-- `LanguageType` of `src/source.rs`. -/
structure LanguageType where
  name : String
  extensions : List String
  statistics : Option Statistics
deriving DecidableEq, Repr

/-- `LanguageType::default()` (all fields at their `Default` values). -/
def defaultLanguageType : LanguageType :=
  { name := "", extensions := [], statistics := none }

/-- `LanguageType::new_from`: keeps the tokei language name, no extensions,
no statistics. -/
def languageTypeNewFrom (tokeiName : String) : LanguageType :=
  { name := tokeiName, extensions := [], statistics := none }

/-- `SourceFileChangeFrequency` of `src/source.rs`. -/
structure SourceFileChangeFrequency where
  file_commits : Int
  total_commits : Int
  frequency : FVal
deriving DecidableEq, Repr

/-- `SourceFileInfo` of `src/source.rs`.  `source_file` keeps only the raw
contents (the structural back-reference to the parent record carried by the
Rust `SourceFile` is irrelevant to every claim). -/
structure SourceFileInfo where
  name : String
  relative_path : String
  language : Option LanguageType
  id_hash : Option String
  source_file : Option String
  statistics : Statistics
deriving DecidableEq, Repr

/-- `Contributor` of `src/repository.rs` (`last_contribution` as an epoch
timestamp). -/
structure Contributor where
  name : String
  last_contribution : Int
  percentage_contribution : FVal
  statistics : Statistics
deriving DecidableEq, Repr

/-- `RepositoryInfo` of `src/repository.rs`. -/
structure RepositoryInfo where
  name : String
  predominant_language : Option LanguageType
  statistics : Statistics
  contributors : List Contributor
  source_files : List SourceFileInfo
deriving DecidableEq, Repr

/-- One entry of a git tree-diff (`git2::DiffDelta`): the new-file path and
the old-file path, each possibly absent. -/
structure DiffDelta where
  new_path : Option String
  old_path : Option String
deriving DecidableEq, Repr

/-- A commit as seen by the miner: the delta list of the tree-diff between the
first parent's tree and the commit's tree (`none` when `parent_count() == 0`),
the author name (`None` when unset) and the author timestamp. -/
structure Commit where
  parentDiff : Option (List DiffDelta)
  author_name : Option String
  author_time : Int
deriving DecidableEq, Repr

/-- A tokei per-file report: the file path and `stats.code` (a `usize`). -/
structure Report where
  name : String
  code : Nat
deriving DecidableEq, Repr

/-- The external collaborators of one mining pass (see the header comment). -/
structure MiningEnv where
  repoPath : String
  walk : Except SourceCodeError (List Commit)
  reports : List (String × List Report)
  fileContents : List (String × String)
  hashFn : String → String

/-- Truncating `usize as i32` cast (two's complement). -/
def i32cast (n : Nat) : Int :=
  if n % 2 ^ 32 < 2 ^ 31 then ((n % 2 ^ 32 : Nat) : Int) else ((n % 2 ^ 32 : Nat) : Int) - 2 ^ 32

/-- Truncating `usize as i64` cast (two's complement). -/
def i64cast (n : Nat) : Int :=
  if n % 2 ^ 64 < 2 ^ 63 then ((n % 2 ^ 64 : Nat) : Int) else ((n % 2 ^ 64 : Nat) : Int) - 2 ^ 64

/-- `usize::try_into::<i64>()`: fails (with `ConversionError` after the
`map_err`) exactly when the value does not fit in an `i64`. -/
def tryIntoI64 (n : Nat) : Except SourceCodeError Int :=
  if n < 2 ^ 63 then .ok (n : Int) else .error .conversionError

/-- Splits a character list at a separator (helper for the path functions). -/
def splitChars (sep : Char) : List Char → List Char → List (List Char)
  | [], cur => [cur.reverse]
  | c :: rest, cur =>
    if c = sep then cur.reverse :: splitChars sep rest [] else splitChars sep rest (c :: cur)

/-- The `/`-separated components of a path string. -/
def pathComponents (s : String) : List String :=
  (splitChars '/' s.toList []).map (fun cs => String.mk cs)

/-- Joins path components back with `/`. -/
def joinPath : List String → String
  | [] => ""
  | [x] => x
  | x :: rest => x ++ "/" ++ joinPath rest

/-- Model of `std::path::Path::file_name`: the last component, absent for an
empty or `..` tail. -/
def pathFileName (p : String) : Option String :=
  match (pathComponents p).getLast? with
  | none => none
  | some c => if c = "" ∨ c = ".." then none else some c

/-- Model of `std::path::Path::extension`: the part of the file name after its
last dot, absent when there is no dot or the name is a bare dotfile. -/
def pathExtension (p : String) : Option String :=
  match pathFileName p with
  | none => none
  | some f =>
    match splitChars '.' f.toList [] with
    | [] => none
    | [_] => none
    | first :: rest =>
      if first = [] ∧ rest.length = 1 then none
      else (rest.getLast?).map (fun cs => String.mk cs)

/-- `file_path.strip_prefix(repo_path)` (component-wise, as for
`std::path::Path`); failure is mapped to `FilePathError`. -/
def stripRepoRoot (repoPath filePath : String) : Except SourceCodeError String :=
  let rc := pathComponents repoPath
  let fc := pathComponents filePath
  if rc = fc.take rc.length then .ok (joinPath (fc.drop rc.length)) else .error .filePathError

/-- The path the frequency loop compares for a delta:
`delta.new_file().path().unwrap_or(delta.old_file().path().unwrap())`.
(A delta with both paths absent makes the Rust code panic; libgit2 never
produces one, and such a delta is treated as matching nothing here.) -/
def deltaPath (d : DiffDelta) : Option String :=
  match d.new_path with
  | some p => some p
  | none => d.old_path

/-- How many deltas of one diff have the target path (the Rust closure
increments `file_commits` once per matching delta). -/
def countFileDeltas (target : String) (deltas : List DiffDelta) : Int :=
  deltas.foldl (fun n d => if deltaPath d = some target then n + 1 else n) 0

/-- Matching-delta count contributed by one commit: a root commit (no parent)
is skipped by the `parent_count() > 0` test. -/
def commitFileCount (target : String) (c : Commit) : Int :=
  match c.parentDiff with
  | none => 0
  | some deltas => countFileDeltas target deltas

/-- The revwalk loop of `SourceFileChangeFrequency::get_from_source_file`:
accumulates `(total_commits, file_commits)` over the walked commits. -/
def sfcfTotals (target : String) (commits : List Commit) : Int × Int :=
  commits.foldl (fun acc c => (acc.1 + 1, acc.2 + commitFileCount target c)) (0, 0)

/-- The pure core of `SourceFileChangeFrequency::get_from_source_file`, given
the commits the revwalk enumerates and the repo-relative target path;
`frequency = file_commits as f32 / total_commits as f32 * 100.00`. -/
def getFromSourceFile (commits : List Commit) (target : String) : SourceFileChangeFrequency :=
  let t := sfcfTotals target commits
  { file_commits := t.2
    total_commits := t.1
    frequency := fmul (fdiv (.fin (t.2 : ℚ)) (.fin (t.1 : ℚ))) (.fin 100) }

/-- `SourceFileChangeFrequency::get_from_source_file`: strip the repo root
from the file path, open the repository and walk from head, then run the
counting loop. -/
def getFromSourceFileE (env : MiningEnv) (filePath : String) :
    Except SourceCodeError SourceFileChangeFrequency :=
  match stripRepoRoot env.repoPath filePath with
  | .error e => .error e
  | .ok target =>
    match env.walk with
    | .error e => .error e
    | .ok commits => .ok (getFromSourceFile commits target)

/-- `Statistics::get_statistics_for_source_file`: size and loc left as
placeholder zeros, `num_files = 1`, commit data copied from the file's
`SourceFileChangeFrequency`. -/
def getStatisticsForSourceFile (env : MiningEnv) (filePath : String) :
    Except SourceCodeError Statistics :=
  match getFromSourceFileE env filePath with
  | .error e => .error e
  | .ok scf =>
    .ok { size := 0, loc := 0, num_files := 1, num_commits := scf.file_commits,
          frequency := scf.frequency }

/-- Looks a path up in the modelled file system
(`std::fs::read_to_string`, `map_err(FileReadError)`). -/
def lookupContents (env : MiningEnv) (path : String) : Except SourceCodeError String :=
  match env.fileContents.find? (fun kv => kv.1 == path) with
  | some kv => .ok kv.2
  | none => .error .fileReadError

/-- `SourceFileInfo::get_file_contents_size`: the byte length of the contents
converted by `try_into`. -/
def getFileContentsSize (s : String) : Except SourceCodeError Int :=
  tryIntoI64 s.utf8ByteSize

/-- `SourceFileInfo::get_source_file_info`: read the contents, compute size
and hash, take the git statistics, overwrite loc (from the tokei report) and
size, then assemble the record (`set_source_file_contents` stores the raw
contents). -/
def getSourceFileInfo (env : MiningEnv) (fileReport : Report) (langType : LanguageType) :
    Except SourceCodeError SourceFileInfo :=
  match lookupContents env fileReport.name with
  | .error e => .error e
  | .ok srcFileContents =>
    match getFileContentsSize srcFileContents with
    | .error e => .error e
    | .ok srcFileContentsSize =>
      let srcFileHash := env.hashFn srcFileContents
      match getStatisticsForSourceFile env fileReport.name with
      | .error e => .error e
      | .ok stats0 =>
        let statistics :=
          { stats0 with loc := i64cast fileReport.code, size := srcFileContentsSize }
        .ok { name := (pathFileName fileReport.name).getD "Name not resolved"
              relative_path := fileReport.name
              language := some { langType with
                                 extensions := (pathExtension fileReport.name).toList }
              id_hash := some srcFileHash
              source_file := some srcFileContents
              statistics := statistics }

/-- The inner loop of `RepositoryInfo::get_source_file_info_for_repo` over one
language's reports. -/
def buildReportInfos (env : MiningEnv) (langType : LanguageType) :
    List Report → Except SourceCodeError (List SourceFileInfo)
  | [] => .ok []
  | r :: rest =>
    match getSourceFileInfo env r langType with
    | .error e => .error e
    | .ok sfi =>
      match buildReportInfos env langType rest with
      | .error e => .error e
      | .ok more => .ok (sfi :: more)

/-- The outer loop of `RepositoryInfo::get_source_file_info_for_repo` over the
tokei languages (each language contributes `LanguageType::new_from` of its
name). -/
def buildFileInfos (env : MiningEnv) :
    List (String × List Report) → Except SourceCodeError (List SourceFileInfo)
  | [] => .ok []
  | (langName, reps) :: rest =>
    match buildReportInfos env (languageTypeNewFrom langName) reps with
    | .error e => .error e
    | .ok these =>
      match buildFileInfos env rest with
      | .error e => .error e
      | .ok more => .ok (these ++ more)

/-- `RepositoryInfo::get_source_file_info_for_repo`. -/
def getSourceFileInfoForRepo (env : MiningEnv) : Except SourceCodeError (List SourceFileInfo) :=
  buildFileInfos env env.reports

/-- `LanguageType::sum_lines_of_code`. -/
def sumLinesOfCode (languageTypes : List LanguageType) : Int :=
  (languageTypes.filterMap (fun lt => lt.statistics.map (fun s => s.loc))).sum

/-- `LanguageType::calculate_percentage_distribution`: no guard on the total;
each entry with statistics gets `loc as f32 / total as f32 * 100.0`. -/
def calculatePercentageDistribution (languages : List LanguageType) : List LanguageType :=
  let total := sumLinesOfCode languages
  languages.map (fun lang =>
    match lang.statistics with
    | none => lang
    | some s =>
      let freq := fmul (fdiv (.fin (s.loc : ℚ)) (.fin (total : ℚ))) (.fin 100)
      { lang with statistics := some { s with frequency := freq } })

/-- The update test of the `get_predominant_language` loop:
`statistics.frequency > highest || (statistics.frequency == highest &&
statistics.size > largest_size)`. -/
def beats (st : Statistics) (highest : FVal) (largest : Int) : Bool :=
  fgt st.frequency highest || (fbeq st.frequency highest && decide (largest < st.size))

/-- One iteration of the `get_predominant_language` loop; the accumulator is
`(predominant_language, highest_percentage, largest_size)`. -/
def predStep (acc : LanguageType × FVal × Int) (lang : LanguageType) : LanguageType × FVal × Int :=
  match lang.statistics with
  | none => acc
  | some st => if beats st acc.2.1 acc.2.2 then (lang, st.frequency, st.size) else acc

/-- The initial accumulator (`LanguageType::default()`, `0.0`, `0_i64`). -/
def predAcc0 : LanguageType × FVal × Int := (defaultLanguageType, .fin 0, 0)

/-- `LanguageType::get_predominant_language`. -/
def getPredominantLanguage (languages : List LanguageType) : LanguageType :=
  (languages.foldl predStep predAcc0).1

/-- `RepositoryInfo::get_predominant_language`: collect each file's language
(when present) and run the selection. -/
def getPredominantLanguageOfFiles (sourceFileInfos : List SourceFileInfo) : LanguageType :=
  getPredominantLanguage (sourceFileInfos.filterMap (fun sfi => sfi.language))

/-- `RepositoryInfo::get_total_size`. -/
def getTotalSize (sourceFileInfos : List SourceFileInfo) : Int :=
  (sourceFileInfos.map (fun sfi => sfi.statistics.size)).sum

/-- `RepositoryInfo::get_total_lines_of_code`. -/
def getTotalLinesOfCode (sourceFileInfos : List SourceFileInfo) : Int :=
  (sourceFileInfos.map (fun sfi => sfi.statistics.loc)).sum

/-- `RepositoryInfo::get_total_commits`: the length of the walk from head
(the `i32` counter is modelled by `Int`; its overflow is out of scope). -/
def getTotalCommits (env : MiningEnv) : Except SourceCodeError Int :=
  match env.walk with
  | .error e => .error e
  | .ok commits => .ok (commits.length : Int)

/-- The `contributions` HashMap update for one commit of the contributor walk:
`or_insert((date, 0))`, increment the count, keep the newer date. -/
def updateContrib (m : List (String × Int × Int)) (name : String) (date : Int) :
    List (String × Int × Int) :=
  match m with
  | [] => [(name, date, 1)]
  | (n, d, k) :: rest =>
    if n = name then (n, (if d < date then date else d), k + 1) :: rest
    else (n, d, k) :: updateContrib rest name date

/-- chrono `NaiveDateTime::from_timestamp_opt(secs, 0)`: `Some` exactly on
the representable range (proleptic Gregorian years -262144 to 262143: the
bounds are the timestamps of `-262144-01-01T00:00:00` and
`262143-12-31T23:59:59`).  The value is kept as the seconds count — the
conversion is monotone and injective, so the walk's later `DateTime`
comparison is the integer comparison of the seconds. -/
def fromTimestampOpt (secs : Int) : Option Int :=
  if -8334632937600 ≤ secs ∧ secs ≤ 8210298412799 then some secs else none

/-- The contributor walk of `Contributor::get_git_contributors`: per commit,
take the author name (`unwrap_or_default`), convert the author timestamp —
`from_timestamp_opt(time.seconds(), 0).unwrap()` panics on an out-of-range
timestamp — and update the `contributions` map (`or_insert((date, 0))`,
increment the count, keep the newer date). -/
def contribFoldPanic : List Commit → List (String × Int × Int) →
    PanicOr (List (String × Int × Int))
  | [], m => .ok m
  | c :: rest, m =>
    match fromTimestampOpt c.author_time with
    | none => .panicked
    | some date => contribFoldPanic rest (updateContrib m (c.author_name.getD "") date)

/-- The contents of the `contributions` map after a panic-free contributor
walk (all timestamps representable; see `contribFoldPanic_eq_ok`), as an
insertion-ordered association list `author name -> (last date, count)`; used
to state which keys a HashMap iteration order must enumerate. -/
def contribMap (commits : List Commit) : List (String × Int × Int) :=
  commits.foldl (fun m c => updateContrib m (c.author_name.getD "") c.author_time) []

/-- `Contributor::get_git_contributors`: panics (`expect`) when the
repository cannot be opened or walked, and panics (`unwrap`) on an
out-of-range author timestamp even when the walk succeeded; otherwise emits
one `Contributor` per map entry in HashMap iteration order (the `perm`
parameter), with
`percentage = num_commits as f32 / total_contributions as f32 * 100.0`. -/
def getGitContributors (env : MiningEnv) (perm : List String) : PanicOr (List Contributor) :=
  match env.walk with
  | .error _ => .panicked
  | .ok commits =>
    match contribFoldPanic commits [] with
    | .panicked => .panicked
    | .ok m =>
    let total : Int := (commits.length : Int)
    .ok (perm.filterMap (fun key =>
      (m.find? (fun e => e.1 == key)).map (fun e =>
        { name := key
          last_contribution := e.2.1
          percentage_contribution := fmul (fdiv (.fin (e.2.2 : ℚ)) (.fin (total : ℚ))) (.fin 100)
          statistics := { size := 0, loc := 0, num_files := 0, num_commits := e.2.2,
                          frequency := .fin 0 } })))

/-- `RepositoryInfo::new`: build the source files (any failure aborts with the
typed error), select the predominant language, assemble the statistics
(`get_total_commits` swallowed by `unwrap_or_default`), then collect the
contributors (which can panic). -/
def repositoryInfoNew (env : MiningEnv) (name : String) (perm : List String) :
    PanicOr (Except SourceCodeError RepositoryInfo) :=
  match getSourceFileInfoForRepo env with
  | .error e => .ok (.error e)
  | .ok source_files =>
    let predominant_language := some (getPredominantLanguageOfFiles source_files)
    let statistics : Statistics :=
      { size := getTotalSize source_files
        loc := getTotalLinesOfCode source_files
        num_files := i32cast source_files.length
        num_commits := match getTotalCommits env with | .ok n => n | .error _ => 0
        frequency := .fin 0 }
    match getGitContributors env perm with
    | .panicked => .panicked
    | .ok contributors =>
      .ok (.ok { name := name, predominant_language := predominant_language,
                 statistics := statistics, contributors := contributors,
                 source_files := source_files })

/-- `_get_source_file_contents` (called `get_source_file_contents` at its use
site in `src/embedding.rs`): the stored contents, or the empty string (after
logging) when they are absent. -/
def getSourceFileContents (sfi : SourceFileInfo) : String :=
  sfi.source_file.getD ""

/-- `negative_sentiment_for_int`: `0.0` for zero, `-(num.ilog10() as f32)`
for positive numbers; `i64::ilog10` (the floor of the base-10 logarithm,
i.e. `Nat.log 10`) panics on a negative argument, modelled by `none`. -/
def negativeSentimentForInt (num : Int) : Option FVal :=
  if num = 0 then some (.fin 0)
  else if 0 < num then some (.fin (-(Nat.log 10 num.toNat : ℚ)))
  else none

/-- `negative_sentiment_for_float`: `0.0` for zero, `-num.log10()` otherwise;
the transcendental `f32::log10` is kept abstract as the parameter `log10f`. -/
def negativeSentimentForFloat (log10f : FVal → FVal) (num : FVal) : FVal :=
  if fbeq num (.fin 0) then .fin 0 else fneg (log10f num)

/-- Formalisation of the spec sentence `size_sentiment = -floor(log10(size))
(0 when size = 0)`; `Nat.log 10` is the floored base-10 logarithm. -/
def specIntSentiment (n : Int) : FVal :=
  if n = 0 then .fin 0 else .fin (-(Nat.log 10 n.toNat : ℚ))

/-- Formalisation of the spec sentence `frequency_sentiment = -log10(frequency)
(continuous, 0 when frequency = 0)`, over the same abstract `log10f`. -/
def specFloatSentiment (log10f : FVal → FVal) (x : FVal) : FVal :=
  if x = .fin 0 then .fin 0 else fneg (log10f x)

/-- `FileData` of `src/embedding.rs`. -/
structure FileData where
  language : String
  id_hash : String
  contents : String
  size_sentiment : FVal
  loc_sentiment : FVal
  frequency_sentiment : FVal
deriving DecidableEq, Repr

/-- `FileToEmbed` of `src/embedding.rs`. -/
structure FileToEmbed where
  name : String
  data : FileData
deriving DecidableEq, Repr

/-- `map_source_file_info_to_file` (the `ilog10` panic on a negative size or
loc is modelled by `none`). -/
def mapSourceFileInfoToFile (log10f : FVal → FVal) (sfi : SourceFileInfo) :
    Option FileToEmbed :=
  let language := (sfi.language.map (fun l => l.name)).getD ""
  let id_hash := sfi.id_hash.getD ""
  let contents := getSourceFileContents sfi
  match negativeSentimentForInt sfi.statistics.size with
  | none => none
  | some size_sentiment =>
    match negativeSentimentForInt sfi.statistics.loc with
    | none => none
    | some loc_sentiment =>
      let frequency_sentiment := negativeSentimentForFloat log10f sfi.statistics.frequency
      some { name := sfi.name
             data := { language := language, id_hash := id_hash, contents := contents,
                       size_sentiment := size_sentiment, loc_sentiment := loc_sentiment,
                       frequency_sentiment := frequency_sentiment } }

/-- A `serde_json::Value` (float and integer JSON numbers distinguished, as
serde does). -/
inductive JVal where
  | null
  | bool (b : Bool)
  | int (n : Int)
  | flt (q : ℚ)
  | str (s : String)
  | arr (xs : List JVal)
  | obj (fields : List (String × JVal))

/-- Rendering of a finite `f32` JSON number by `Display` (approximate; no
theorem depends on the exact digits). -/
def renderQ (q : ℚ) : String :=
  if q.den = 1 then toString q.num ++ ".0" else toString q

/-- `serde_json::Value`'s `Display` for the scalar (leaf) values; string
escaping is elided (no theorem depends on it). -/
def renderLeaf : JVal → String
  | .null => "null"
  | .bool b => toString b
  | .int n => toString n
  | .flt q => renderQ q
  | .str s => "\"" ++ s ++ "\""
  | .arr _ => ""
  | .obj _ => ""

/-- The stack loop of `flatten_json`: the head of the list is the top of the
stack (the Rust `Vec` pushes and pops at its end, so an object's or array's
children are processed in reverse order, each fully before the next); leaves
append `path ++ "/" ++ value` to the token list. -/
def flattenStack : List (JVal × String) → List String → List String
  | [], tokens => tokens
  | (v, path) :: rest, tokens =>
    match v with
    | .obj fields =>
      flattenStack (((fields.map (fun kv => (kv.2, path ++ "/" ++ kv.1))).reverse) ++ rest) tokens
    | .arr xs =>
      flattenStack ((((xs.enum).map (fun p => (p.2, path ++ "/" ++ toString p.1))).reverse) ++ rest)
        tokens
    | .null => flattenStack rest (tokens ++ [path ++ "/" ++ renderLeaf .null])
    | .bool b => flattenStack rest (tokens ++ [path ++ "/" ++ renderLeaf (.bool b)])
    | .int n => flattenStack rest (tokens ++ [path ++ "/" ++ renderLeaf (.int n)])
    | .flt q => flattenStack rest (tokens ++ [path ++ "/" ++ renderLeaf (.flt q)])
    | .str s => flattenStack rest (tokens ++ [path ++ "/" ++ renderLeaf (.str s)])
termination_by stack _ => ((stack.map (fun p => sizeOf p.1)).sum)
decreasing_by
  · have hobj : ∀ (fs : List (String × JVal)),
        ((fs.map (fun kv => sizeOf kv.2)).sum) < 1 + sizeOf fs := by
      intro fs
      induction fs with
      | nil => simp
      | cons kv rest2 ih =>
        cases kv with
        | mk a b =>
          simp only [List.map_cons, List.sum_cons, List.cons.sizeOf_spec,
            Prod.mk.sizeOf_spec] at *
          omega
    have := hobj fields
    simp [List.map_reverse, List.sum_reverse, Function.comp_def]
    omega
  · have harr : ∀ (l : List JVal), ((l.map sizeOf).sum) < 1 + sizeOf l := by
      intro l
      induction l with
      | nil => simp
      | cons x rest2 ih =>
        simp only [List.map_cons, List.sum_cons, List.cons.sizeOf_spec] at *
        omega
    have := harr xs
    have henum : ((xs.enum.map (fun p => sizeOf p.2)).sum) = ((xs.map sizeOf).sum) := by
      clear * -
      have h : ∀ (l : List JVal) (k : Nat),
          (((l.enumFrom k).map (fun p => sizeOf p.2)).sum) = ((l.map sizeOf).sum) := by
        intro l
        induction l with
        | nil => intro _k; simp
        | cons x rest2 ih => intro _k; simp [List.enumFrom, ih]
      simpa [List.enum] using h xs 0
    simp [List.map_reverse, List.sum_reverse, Function.comp_def] at henum ⊢
    omega
  all_goals simp

/-- `flatten_json`. -/
def flattenJson (json : JVal) : List String :=
  flattenStack [(json, "")] []

/-- How serde serializes the `f32` fields: non-finite values become `null`. -/
def jsonOfFVal : FVal → JVal
  | .fin q => .flt q
  | _ => .null

/-- Serialization of an `Option<String>` field without serde attributes. -/
def jsonOfOptStr : Option String → JVal
  | none => .null
  | some s => .str s

/-- Serialization of `Statistics` (all fields unconditional). -/
def serializeStatistics (s : Statistics) : JVal :=
  .obj [("size", .int s.size), ("loc", .int s.loc), ("num_files", .int s.num_files),
        ("num_commits", .int s.num_commits), ("frequency", jsonOfFVal s.frequency)]

/-- Serialization of `LanguageType`: `statistics` carries
`#[serde(skip_serializing_if = "Option::is_none")]`. -/
def serializeLanguageType (lt : LanguageType) : JVal :=
  .obj ([("name", .str lt.name), ("extensions", .arr (lt.extensions.map (fun e => .str e)))]
    ++ (match lt.statistics with
        | none => []
        | some s => [("statistics", serializeStatistics s)]))

/-- Serialization of `SourceFileInfo`: `language` carries
`skip_serializing_if = "Option::is_none"`, `source_file` carries
`#[serde(skip)]` (never emitted), `id_hash` is a plain `Option` (null when
absent). -/
def serializeSourceFileInfo (sfi : SourceFileInfo) : JVal :=
  .obj ([("name", .str sfi.name), ("relative_path", .str sfi.relative_path)]
    ++ (match sfi.language with
        | none => []
        | some lt => [("language", serializeLanguageType lt)])
    ++ [("id_hash", jsonOfOptStr sfi.id_hash), ("statistics", serializeStatistics sfi.statistics)])

/-- Serialization of `Contributor` (the `DateTime<Utc>` is rendered as a
string; the exact format is irrelevant to every claim). -/
def serializeContributor (c : Contributor) : JVal :=
  .obj [("name", .str c.name), ("last_contribution", .str (toString c.last_contribution)),
        ("percentage_contribution", jsonOfFVal c.percentage_contribution),
        ("statistics", serializeStatistics c.statistics)]

/-- Serialization of `RepositoryInfo` (no serde attributes: every field
unconditional, `predominant_language` null when `None`). -/
def serializeRepositoryInfo (r : RepositoryInfo) : JVal :=
  .obj [("name", .str r.name),
        ("predominant_language",
          match r.predominant_language with
          | none => .null
          | some lt => serializeLanguageType lt),
        ("statistics", serializeStatistics r.statistics),
        ("contributors", .arr (r.contributors.map serializeContributor)),
        ("source_files", .arr (r.source_files.map serializeSourceFileInfo))]

/-- One full mining pass followed by `get_as_json` (serialization modelled up
to the JSON tree; JSON encoding mechanics are out of the spec's scope). -/
def minePassSerialized (env : MiningEnv) (name : String) (perm : List String) :
    PanicOr (Except SourceCodeError JVal) :=
  match repositoryInfoNew env name perm with
  | .panicked => .panicked
  | .ok (.error e) => .ok (.error e)
  | .ok (.ok r) => .ok (.ok (serializeRepositoryInfo r))

/-- The keys of a JSON object (field names in emission order). -/
def objKeys : JVal → List String
  | .obj fields => fields.map (fun kv => kv.1)
  | _ => []

/-- Looks a key up in a JSON object. -/
def objGet (key : String) : JVal → Option JVal
  | .obj fields => (fields.find? (fun kv => kv.1 == key)).map (fun kv => kv.2)
  | _ => none

/-- The string payload of a JSON value, when it is a string. -/
def jStrOf : JVal → Option String
  | .str s => some s
  | _ => none

/-- The `name` fields of the serialized `contributors` array (a projection
used to compare serialized documents). -/
def serializedContribNames (j : JVal) : List (Option String) :=
  match objGet "contributors" j with
  | some (.arr cs) => cs.map (fun c => jStrOf ((objGet "name" c).getD .null))
  | _ => []

/-- The contributor names of one serialized mining pass. -/
def passNames (p : PanicOr (Except SourceCodeError JVal)) : List (Option String) :=
  match p with
  | .ok (.ok j) => serializedContribNames j
  | _ => []

/-- The parsed `serde_json::Value` of one serialized `FileToEmbed`: parsing
into `Value` uses a `BTreeMap`, so both the top level and the `data` object
iterate their keys in sorted order. -/
def fileDataValue (fd : FileData) : JVal :=
  .obj [("contents", .str fd.contents),
        ("frequency_sentiment", jsonOfFVal fd.frequency_sentiment),
        ("id_hash", .str fd.id_hash),
        ("language", .str fd.language),
        ("loc_sentiment", jsonOfFVal fd.loc_sentiment),
        ("size_sentiment", jsonOfFVal fd.size_sentiment)]

/-- The tokens contributed by one file in `create_repository_embedding`:
`key` is the record's `name` (extracted with `as_str().unwrap()`, always
present by construction), and each flattened value of the `data` object
yields `format!("{0}: {1}", key, value)`. -/
def fileToEmbedTokens (f : FileToEmbed) : List String :=
  (flattenJson (fileDataValue f.data)).map (fun v => f.name ++ ": " ++ v)

/-- The per-file mapping loop of `create_repository_embedding` (panics inside
a file abort, modelled by `none`). -/
def filesToEmbed (log10f : FVal → FVal) :
    List SourceFileInfo → Option (List FileToEmbed)
  | [] => some []
  | sfi :: rest =>
    match mapSourceFileInfoToFile log10f sfi with
    | none => none
    | some f =>
      match filesToEmbed log10f rest with
      | none => none
      | some more => some (f :: more)

/-- The full ordered token sequence `create_repository_embedding` hands to the
embedding model (the `result` vector). -/
def createRepositoryEmbeddingTokens (log10f : FVal → FVal) (stats : RepositoryInfo) :
    Option (List String) :=
  (filesToEmbed log10f stats.source_files).map (fun files => (files.map fileToEmbedTokens).flatten)

/-- One full mining pass followed by the feature-preparation pipeline. -/
def pipelineTokens (log10f : FVal → FVal) (env : MiningEnv) (name : String)
    (perm : List String) : PanicOr (Except SourceCodeError (Option (List String))) :=
  match repositoryInfoNew env name perm with
  | .panicked => .panicked
  | .ok (.error e) => .ok (.error e)
  | .ok (.ok r) => .ok (.ok (createRepositoryEmbeddingTokens log10f r))

/-- Range check for a single `f32` frequency value: finite and in `[0,100]`. -/
def freqValInRange (v : FVal) : Bool :=
  match v with
  | .fin q => decide (0 ≤ q ∧ q ≤ 100)
  | _ => false

/-- Range check for the `frequency` of one language entry (entries without
statistics pass vacuously). -/
def freqInRange (lt : LanguageType) : Bool :=
  match lt.statistics with
  | none => true
  | some st => freqValInRange st.frequency

/-- A language entry's frequency is finite (entries without statistics pass
vacuously). -/
def statFinite (lt : LanguageType) : Bool :=
  match lt.statistics with
  | none => true
  | some st => st.frequency.isFin

/-- A language entry's loc is nonnegative (entries without statistics pass
vacuously). -/
def statLocNonneg (lt : LanguageType) : Bool :=
  match lt.statistics with
  | none => true
  | some st => decide (0 ≤ st.loc)

/-- At most one delta of the commit's diff matches the target (true of libgit2
tree-diffs, whose deltas are per-path). -/
def commitDeltaCountOK (target : String) (c : Commit) : Bool :=
  match c.parentDiff with
  | none => true
  | some ds => decide (countFileDeltas target ds ≤ 1)

/-- A root commit contributes nothing to `file_commits`. -/
def rootNoFileCommits (target : String) (c : Commit) : Bool :=
  match c.parentDiff with
  | none => commitFileCount target c == 0
  | some _ => true

/-- Whether a commit's diff contains a delta whose resolved path is the
target. -/
def commitTouches (target : String) (c : Commit) : Bool :=
  match c.parentDiff with
  | none => false
  | some ds => ds.any (fun d => deltaPath d == some target)

/-- A one-commit history by `alice`. -/
def commitsDemo : List Commit :=
  [{ parentDiff := none, author_name := some "alice", author_time := 10 }]

/-- An environment on which every stage succeeds: one root commit, one Rust
file of 3 code lines. -/
def envOk : MiningEnv :=
  { repoPath := "r"
    walk := .ok commitsDemo
    reports := [("Rust", [{ name := "r/a.rs", code := 3 }])]
    fileContents := [("r/a.rs", "fn main")]
    hashFn := fun _ => "h" }

/-- Fallback record (used only for the impossible branch of `sampleRepo`). -/
def emptyRepositoryInfo : RepositoryInfo :=
  { name := "", predominant_language := none, statistics := statisticsNew,
    contributors := [], source_files := [] }

/-- The repository record `RepositoryInfo::new` builds on `envOk`. -/
def sampleRepo : RepositoryInfo :=
  match repositoryInfoNew envOk "repo" ["alice"] with
  | .ok (.ok r) => r
  | _ => emptyRepositoryInfo

/-- A two-commit history with two distinct authors. -/
def commitsTwoAuthors : List Commit :=
  [{ parentDiff := none, author_name := some "alice", author_time := 10 },
   { parentDiff := some [], author_name := some "bob", author_time := 20 }]

/-- An environment with two contributors and no source files. -/
def envTwoAuthors : MiningEnv :=
  { repoPath := "r", walk := .ok commitsTwoAuthors, reports := [], fileContents := [],
    hashFn := fun _ => "" }

/-- A three-commit history in which `a.rs` is touched by one non-root commit:
a root commit, a commit touching only `lib.rs`, and a commit touching `a.rs`. -/
def commitsFreqDemo : List Commit :=
  [{ parentDiff := none, author_name := some "alice", author_time := 1 },
   { parentDiff := some [{ new_path := some "lib.rs", old_path := some "lib.rs" }],
     author_name := some "alice", author_time := 2 },
   { parentDiff := some [{ new_path := some "a.rs", old_path := some "a.rs" }],
     author_name := some "bob", author_time := 3 }]

/-- Two languages with frequencies 30 and 70. -/
def langsDemo : List LanguageType :=
  [{ name := "A", extensions := [], statistics :=
      some { size := 1, loc := 30, num_files := 1, num_commits := 0, frequency := .fin 30 } },
   { name := "B", extensions := [], statistics :=
      some { size := 9, loc := 70, num_files := 1, num_commits := 0, frequency := .fin 70 } }]

/-- A language entry with zero frequency but positive size. -/
def langZeroFreq : LanguageType :=
  { name := "X", extensions := [],
    statistics := some { size := 5, loc := 0, num_files := 1, num_commits := 0,
                         frequency := .fin 0 } }

/-- One language entry whose loc is 0, so the summed total loc is 0. -/
def langsZeroTotal : List LanguageType :=
  [{ name := "Rust", extensions := [],
     statistics := some { size := 0, loc := 0, num_files := 0, num_commits := 0,
                          frequency := .fin 0 } }]

/-- The spec's 80/20 percentage-distribution scenario. -/
def langsDistDemo : List LanguageType :=
  [{ name := "A", extensions := [], statistics := some { statisticsNew with loc := 80 } },
   { name := "B", extensions := [], statistics := some { statisticsNew with loc := 20 } }]

/-- Abstract base-10 logarithm used by the C7 witness. -/
def log10fDemo : FVal → FVal := fun _ => .fin 7

/-- Fallback record (used only for impossible fallback branches). -/
def defaultSourceFileInfo : SourceFileInfo :=
  { name := "", relative_path := "", language := none, id_hash := none,
    source_file := none, statistics := statisticsNew }

/-- A source-file record with zero size and loc and frequency 4. -/
def sfiSentimentDemo : SourceFileInfo :=
  { name := "a.rs", relative_path := "r/a.rs",
    language := some (languageTypeNewFrom "Rust"), id_hash := some "h",
    source_file := some "x",
    statistics := { size := 0, loc := 0, num_files := 1, num_commits := 0,
                    frequency := .fin 4 } }

/-- The record the feature pipeline derives from `sfiSentimentDemo`. -/
def fileToEmbedDemo : FileToEmbed :=
  match mapSourceFileInfoToFile log10fDemo sfiSentimentDemo with
  | some f => f
  | none =>
    { name := "", data := { language := "", id_hash := "", contents := "",
                            size_sentiment := .fin 0, loc_sentiment := .fin 0,
                            frequency_sentiment := .fin 0 } }

/-- The report of `envOk`. -/
def reportDemo : Report := { name := "r/a.rs", code := 3 }

/-- The change-frequency record of `envOk`'s file. -/
def scfDemo : SourceFileChangeFrequency :=
  match getFromSourceFileE envOk "r/a.rs" with
  | .ok scf => scf
  | .error _ => { file_commits := 0, total_commits := 0, frequency := .fin 0 }

/-- The source-file record `get_source_file_info` builds on `envOk`. -/
def sfiOkDemo : SourceFileInfo :=
  match getSourceFileInfo envOk reportDemo (languageTypeNewFrom "Rust") with
  | .ok sfi => sfi
  | .error _ => defaultSourceFileInfo

theorem fval_isFin_iff (v : FVal) : v.isFin = true ↔ ∃ q, v = .fin q := by
  cases v <;> simp [FVal.isFin]

theorem fbeq_fin_zero_iff (v : FVal) : fbeq v (.fin 0) = true ↔ v = .fin 0 := by
  cases v <;> simp [fbeq]

theorem countFileDeltas_eq_countP (target : String) (ds : List DiffDelta) :
    countFileDeltas target ds = ((ds.countP (fun d => deltaPath d == some target)) : Int) := by
  have h : ∀ (l : List DiffDelta) (n : Int),
      l.foldl (fun n d => if deltaPath d = some target then n + 1 else n) n
        = n + ((l.countP (fun d => deltaPath d == some target)) : Int) := by
    intro l
    induction l with
    | nil => intro n; simp
    | cons d rest ih =>
      intro n
      simp only [List.foldl_cons, List.countP_cons]
      by_cases hd : deltaPath d = some target
      · have hb : (deltaPath d == some target) = true := beq_iff_eq.mpr hd
        rw [if_pos hd, ih, hb]
        push_cast
        simp
        omega
      · have hb : (deltaPath d == some target) = false := by
          simpa using hd
        rw [if_neg hd, ih, hb]
        simp
  simpa [countFileDeltas] using h ds 0

theorem sfcfTotals_eq (target : String) (commits : List Commit) :
    sfcfTotals target commits
      = ((commits.length : Int), (commits.map (commitFileCount target)).sum) := by
  have h : ∀ (l : List Commit) (a b : Int),
      l.foldl (fun acc c => (acc.1 + 1, acc.2 + commitFileCount target c)) (a, b)
        = (a + (l.length : Int), b + (l.map (commitFileCount target)).sum) := by
    intro l
    induction l with
    | nil => intro a b; simp
    | cons c rest ih =>
      intro a b
      simp only [List.foldl_cons, ih, List.length_cons, List.map_cons, List.sum_cons,
        Prod.mk.injEq]
      constructor <;> push_cast <;> ring
  simpa [sfcfTotals] using h commits 0 0

theorem commitFileCount_eq (target : String) (c : Commit)
    (hok : commitDeltaCountOK target c = true) :
    commitFileCount target c = if commitTouches target c then 1 else 0 := by
  cases hpd : c.parentDiff with
  | none => simp [commitFileCount, commitTouches, hpd]
  | some ds =>
    have hle : countFileDeltas target ds ≤ 1 := by
      simpa [commitDeltaCountOK, hpd] using hok
    rw [countFileDeltas_eq_countP] at hle
    simp only [commitFileCount, commitTouches, hpd]
    rw [countFileDeltas_eq_countP]
    by_cases hany : ds.any (fun d => deltaPath d == some target) = true
    · have hpos : 0 < ds.countP (fun d => deltaPath d == some target) := by
        rw [List.countP_pos_iff]
        simpa [List.any_eq_true] using hany
      rw [if_pos hany]
      omega
    · have hzero : ds.countP (fun d => deltaPath d == some target) = 0 := by
        rw [List.countP_eq_zero]
        intro d hd
        by_contra hcon
        exact hany (List.any_eq_true.mpr ⟨d, hd, by simpa using hcon⟩)
      rw [if_neg hany, hzero]
      simp

theorem fileCommits_eq_filter_length (target : String) (commits : List Commit)
    (hall : commits.all (commitDeltaCountOK target) = true) :
    (commits.map (commitFileCount target)).sum
      = ((commits.filter (commitTouches target)).length : Int) := by
  induction commits with
  | nil => simp
  | cons c rest ih =>
    rw [List.all_cons, Bool.and_eq_true] at hall
    obtain ⟨hc, hrest⟩ := hall
    simp only [List.map_cons, List.sum_cons, ih hrest, commitFileCount_eq target c hc]
    by_cases ht : commitTouches target c = true
    · rw [if_pos ht, List.filter_cons_of_pos ht]
      simp
      omega
    · rw [if_neg ht, List.filter_cons_of_neg (by simpa using ht)]
      simp

/-- C3: `SourceFileChangeFrequency::get_from_source_file` counts every walked
commit into `total_commits`; a commit contributes to `file_commits` exactly
when the diff against its first parent has an entry whose new-file path
(falling back to the old-file path) is the target; a root commit never
contributes; and the frequency is `file_commits / total_commits * 100`.
The hypothesis `hdeltas` states that no diff lists the target path twice
(true of libgit2 tree-diffs, whose deltas are per-path). -/
theorem c3_change_frequency_algorithm (commits : List Commit) (target : String)
    (hne : commits ≠ [])
    (hdeltas : commits.all (commitDeltaCountOK target) = true) :
    (getFromSourceFile commits target).total_commits = (commits.length : Int)
    ∧ (getFromSourceFile commits target).file_commits
        = ((commits.filter (commitTouches target)).length : Int)
    ∧ commits.all (rootNoFileCommits target) = true
    ∧ (getFromSourceFile commits target).frequency
        = .fin (((getFromSourceFile commits target).file_commits : ℚ)
            / ((getFromSourceFile commits target).total_commits : ℚ) * 100) := by
  have htot := sfcfTotals_eq target commits
  have hfc := fileCommits_eq_filter_length target commits hdeltas
  have hlen : (commits.length : Int) ≠ 0 := by
    have : commits.length ≠ 0 := by
      intro h0
      exact hne (List.length_eq_zero.mp h0)
    exact_mod_cast this
  refine ⟨?_, ?_, ?_, ?_⟩
  · simp [getFromSourceFile, htot]
  · simp [getFromSourceFile, htot, hfc]
  · rw [List.all_eq_true]
    intro c hc
    cases hpd : c.parentDiff <;> simp [rootNoFileCommits, hpd, commitFileCount]
  · have hq : ((commits.length : Int) : ℚ) ≠ 0 := by
      exact_mod_cast hlen
    simp [getFromSourceFile, htot, fdiv, fmul, hq, hne]

/-- Witness for C3: the three-commit demo history: 3 total commits, 1 commit
touching `a.rs`, roots contribute nothing, frequency `1/3 * 100`. -/
theorem c3_change_frequency_algorithm_witness :
    (getFromSourceFile commitsFreqDemo "a.rs").total_commits = (commitsFreqDemo.length : Int)
    ∧ (getFromSourceFile commitsFreqDemo "a.rs").file_commits
        = ((commitsFreqDemo.filter (commitTouches "a.rs")).length : Int)
    ∧ commitsFreqDemo.all (rootNoFileCommits "a.rs") = true
    ∧ (getFromSourceFile commitsFreqDemo "a.rs").frequency
        = .fin (((getFromSourceFile commitsFreqDemo "a.rs").file_commits : ℚ)
            / ((getFromSourceFile commitsFreqDemo "a.rs").total_commits : ℚ) * 100) :=
  c3_change_frequency_algorithm commitsFreqDemo "a.rs" (by decide) (by decide)

theorem freq_formula_in_range (loc total : Int) (h0 : 0 ≤ loc) (hle : loc ≤ total)
    (hpos : 0 < total) :
    freqValInRange (fmul (fdiv (.fin (loc : ℚ)) (.fin (total : ℚ))) (.fin 100)) = true := by
  have htq : (0 : ℚ) < (total : ℚ) := by exact_mod_cast hpos
  have hbz : ((total : Int) : ℚ) ≠ 0 := ne_of_gt htq
  have hl0 : (0 : ℚ) ≤ (loc : ℚ) := by exact_mod_cast h0
  simp only [fdiv, fmul, if_neg hbz, freqValInRange, decide_eq_true_eq]
  constructor
  · have := div_nonneg hl0 (le_of_lt htq)
    nlinarith
  · have hdle : (loc : ℚ) / (total : ℚ) ≤ 1 := by
      rw [div_le_one htq]
      exact_mod_cast hle
    nlinarith

/-- C1 (amended): the frequencies computed by
`calculate_percentage_distribution` lie in `[0,100]` when the summed total
lines of code are positive (and locs nonnegative), and the frequency of
`get_from_source_file` lies in `[0,100]` when at least one commit is walked;
when the relevant denominator is 0 both code paths yield NaN, not 0 (see the
counterexample). -/
theorem c1_amended_frequency_range (languages : List LanguageType) (commits : List Commit)
    (target : String)
    (hloc : languages.all statLocNonneg = true)
    (htot : 0 < sumLinesOfCode languages)
    (hne : commits ≠ [])
    (hdeltas : commits.all (commitDeltaCountOK target) = true) :
    (calculatePercentageDistribution languages).all freqInRange = true
    ∧ freqValInRange (getFromSourceFile commits target).frequency = true := by
  rw [List.all_eq_true] at hloc
  constructor
  · rw [List.all_eq_true]
    intro x hx
    simp only [calculatePercentageDistribution] at hx
    obtain ⟨lt, hmem, hlt⟩ := List.mem_map.mp hx
    subst hlt
    cases hst : lt.statistics with
    | none =>
      simp [freqInRange, hst]
    | some s =>
      have h0 : 0 ≤ s.loc := by
        have := hloc lt hmem
        simpa [statLocNonneg, hst] using this
      have hmemloc : s.loc ∈ languages.filterMap (fun l => l.statistics.map (fun t => t.loc)) := by
        exact List.mem_filterMap.mpr ⟨lt, hmem, by rw [hst]; rfl⟩
      have hlocnn : ∀ y ∈ languages.filterMap (fun l => l.statistics.map (fun t => t.loc)),
          0 ≤ y := by
        intro y hy
        obtain ⟨l, hlm, hfm⟩ := List.mem_filterMap.mp hy
        cases hst2 : l.statistics with
        | none => rw [hst2] at hfm; simp at hfm
        | some t =>
          rw [hst2] at hfm
          simp at hfm
          subst hfm
          have := hloc l hlm
          simpa [statLocNonneg, hst2] using this
      have hle : s.loc ≤ sumLinesOfCode languages :=
        List.single_le_sum hlocnn _ hmemloc
      have := freq_formula_in_range s.loc (sumLinesOfCode languages) h0 hle htot
      simpa [freqInRange, hst] using this
  · have htot2 := sfcfTotals_eq target commits
    have hfc := fileCommits_eq_filter_length target commits hdeltas
    have hlenpos : 0 < (commits.length : Int) := by
      have : commits ≠ [] := hne
      have hne2 : commits.length ≠ 0 := by
        intro h0
        exact this (List.length_eq_zero.mp h0)
      omega
    have hfle : ((commits.filter (commitTouches target)).length : Int)
        ≤ (commits.length : Int) := by
      exact_mod_cast List.length_filter_le _ _
    have := freq_formula_in_range ((commits.filter (commitTouches target)).length : Int)
      (commits.length : Int) (by positivity) hfle hlenpos
    simpa [getFromSourceFile, htot2, hfc] using this

/-- Counterexample for C1: with a zero denominator both frequency code paths
produce NaN, not 0 — `calculate_percentage_distribution` on a language list
whose summed loc is 0, and `get_from_source_file` when no commit is walked. -/
theorem c1_counterexample :
    ((calculatePercentageDistribution langsZeroTotal).map
        (fun lt => lt.statistics.map (fun s => s.frequency))) = [some FVal.nan]
    ∧ (getFromSourceFile [] "a.rs").frequency = FVal.nan := by
  exact ⟨by decide, by decide⟩

/-- Witness for C1 (amended): the spec's 80/20 distribution scenario and the
three-commit frequency scenario stay within `[0,100]`. -/
theorem c1_amended_frequency_range_witness :
    (calculatePercentageDistribution langsDistDemo).all freqInRange = true
    ∧ freqValInRange (getFromSourceFile commitsFreqDemo "a.rs").frequency = true :=
  c1_amended_frequency_range langsDistDemo commitsFreqDemo "a.rs" (by decide) (by decide)
    (by decide) (by decide)

theorem i32cast_of_lt (n : Nat) (h : n < 2 ^ 31) : i32cast n = (n : Int) := by
  unfold i32cast
  have h32 : n % 2 ^ 32 = n := Nat.mod_eq_of_lt (by omega)
  rw [if_pos (by omega : n % 2 ^ 32 < 2 ^ 31), h32]

/-- C4: on a successfully built repository, the repository-level statistics
are the aggregates of the per-file statistics (sum of sizes, sum of locs,
file count within `i32` range), and `num_commits` is the commit count the
history miner produced (when the walk succeeded; on a walk failure the code
substitutes 0 via `unwrap_or_default`, see C2). -/
theorem c4_repository_statistics_aggregate (env : MiningEnv) (name : String)
    (perm : List String) (r : RepositoryInfo) (commits : List Commit)
    (h : repositoryInfoNew env name perm = .ok (.ok r))
    (hw : env.walk = .ok commits)
    (hcount : r.source_files.length < 2 ^ 31) :
    r.statistics.size = (r.source_files.map (fun sfi => sfi.statistics.size)).sum
    ∧ r.statistics.loc = (r.source_files.map (fun sfi => sfi.statistics.loc)).sum
    ∧ r.statistics.num_files = (r.source_files.length : Int)
    ∧ r.statistics.num_commits = (commits.length : Int) := by
  unfold repositoryInfoNew at h
  cases hsf : getSourceFileInfoForRepo env with
  | error e =>
    rw [hsf] at h
    simp at h
  | ok sfis =>
    rw [hsf] at h
    cases hgc : getGitContributors env perm with
    | panicked =>
      rw [hgc] at h
      simp at h
    | ok contribs =>
      rw [hgc] at h
      simp only [PanicOr.ok.injEq, Except.ok.injEq] at h
      subst h
      refine ⟨by simp [getTotalSize], by simp [getTotalLinesOfCode], ?_, ?_⟩
      · exact i32cast_of_lt _ hcount
      · simp [getTotalCommits, hw]

/-- Witness for C4 at the concrete environment `envOk`. -/
theorem c4_repository_statistics_aggregate_witness :
    sampleRepo.statistics.size
        = (sampleRepo.source_files.map (fun sfi => sfi.statistics.size)).sum
    ∧ sampleRepo.statistics.loc
        = (sampleRepo.source_files.map (fun sfi => sfi.statistics.loc)).sum
    ∧ sampleRepo.statistics.num_files = (sampleRepo.source_files.length : Int)
    ∧ sampleRepo.statistics.num_commits = (commitsDemo.length : Int) :=
  c4_repository_statistics_aggregate envOk "repo" ["alice"] sampleRepo commitsDemo
    (by rfl) (by rfl) (by decide)

theorem getSourceFileInfo_eq (env : MiningEnv) (rep : Report) (lt : LanguageType)
    (contents : String) (hc : lookupContents env rep.name = .ok contents) :
    getSourceFileInfo env rep lt
      = match getFileContentsSize contents with
        | .error e => .error e
        | .ok srcFileContentsSize =>
          match getStatisticsForSourceFile env rep.name with
          | .error e => .error e
          | .ok stats0 =>
            .ok { name := (pathFileName rep.name).getD "Name not resolved"
                  relative_path := rep.name
                  language := some { lt with extensions := (pathExtension rep.name).toList }
                  id_hash := some (env.hashFn contents)
                  source_file := some contents
                  statistics := { stats0 with
                                  loc := i64cast rep.code
                                  size := srcFileContentsSize } } := by
  unfold getSourceFileInfo
  rw [hc]

/-- C8: on a successfully built per-file record, `size` is the byte length of
the file contents, `loc` is the tokei code count (within `i64` range),
`num_files` is 1, and `num_commits`/`frequency` are copied from the file's
`SourceFileChangeFrequency`; a byte length outside `i64` range is rejected by
`try_into` with the typed `ConversionError` instead of silently truncating. -/
theorem c8_per_file_statistics (env : MiningEnv) (rep : Report) (lt : LanguageType)
    (sfi : SourceFileInfo) (contents : String) (scf : SourceFileChangeFrequency) (n : Nat)
    (h : getSourceFileInfo env rep lt = .ok sfi)
    (hc : lookupContents env rep.name = .ok contents)
    (hscf : getFromSourceFileE env rep.name = .ok scf)
    (hcode : rep.code < 2 ^ 63)
    (hn : 2 ^ 63 ≤ n) :
    sfi.statistics.size = (contents.utf8ByteSize : Int)
    ∧ sfi.statistics.loc = (rep.code : Int)
    ∧ sfi.statistics.num_files = 1
    ∧ sfi.statistics.num_commits = scf.file_commits
    ∧ sfi.statistics.frequency = scf.frequency
    ∧ tryIntoI64 n = .error .conversionError := by
  rw [getSourceFileInfo_eq env rep lt contents hc] at h
  have h3 : getStatisticsForSourceFile env rep.name
      = .ok { size := 0, loc := 0, num_files := 1, num_commits := scf.file_commits,
              frequency := scf.frequency } := by
    unfold getStatisticsForSourceFile
    rw [hscf]
  cases h2 : getFileContentsSize contents with
  | error e =>
    rw [h2] at h
    simp at h
  | ok sz =>
    rw [h2, h3] at h
    simp only [Except.ok.injEq] at h
    subst h
    have hsz : sz = (contents.utf8ByteSize : Int) := by
      unfold getFileContentsSize tryIntoI64 at h2
      by_cases hlt : contents.utf8ByteSize < 2 ^ 63
      · rw [if_pos hlt] at h2
        simp only [Except.ok.injEq] at h2
        exact h2.symm
      · rw [if_neg hlt] at h2
        simp at h2
    refine ⟨?_, ?_, ?_, ?_, ?_, ?_⟩
    · simpa using hsz
    · show i64cast rep.code = (rep.code : Int)
      unfold i64cast
      have hm : rep.code % 2 ^ 64 = rep.code := Nat.mod_eq_of_lt (by omega)
      rw [hm, if_pos hcode]
    · simp
    · simp
    · simp
    · unfold tryIntoI64
      rw [if_neg (by omega)]

/-- Witness for C8 at the concrete environment `envOk` (with `2^63` as the
out-of-range byte length). -/
theorem c8_per_file_statistics_witness :
    sfiOkDemo.statistics.size = (("fn main" : String).utf8ByteSize : Int)
    ∧ sfiOkDemo.statistics.loc = ((3 : Nat) : Int)
    ∧ sfiOkDemo.statistics.num_files = 1
    ∧ sfiOkDemo.statistics.num_commits = scfDemo.file_commits
    ∧ sfiOkDemo.statistics.frequency = scfDemo.frequency
    ∧ tryIntoI64 (2 ^ 63) = .error .conversionError :=
  c8_per_file_statistics envOk reportDemo (languageTypeNewFrom "Rust") sfiOkDemo
    "fn main" scfDemo (2 ^ 63) (by rfl) (by rfl) (by rfl) (by decide) (by decide)

theorem negativeSentimentForInt_eq_spec (n : Int) (v : FVal)
    (h : negativeSentimentForInt n = some v) : v = specIntSentiment n := by
  unfold negativeSentimentForInt at h
  unfold specIntSentiment
  by_cases h0 : n = 0
  · rw [if_pos h0] at h
    rw [if_pos h0]
    simp only [Option.some.injEq] at h
    exact h.symm
  · rw [if_neg h0] at h
    rw [if_neg h0]
    by_cases hpos : 0 < n
    · rw [if_pos hpos] at h
      simp only [Option.some.injEq] at h
      exact h.symm
    · rw [if_neg hpos] at h
      simp at h

theorem negativeSentimentForFloat_eq_spec (log10f : FVal → FVal) (v : FVal) :
    negativeSentimentForFloat log10f v = specFloatSentiment log10f v := by
  unfold negativeSentimentForFloat specFloatSentiment
  by_cases h : v = .fin 0
  · rw [if_pos ((fbeq_fin_zero_iff v).mpr h), if_pos h]
  · rw [if_neg (fun hb => h ((fbeq_fin_zero_iff v).mp hb)), if_neg h]

/-- C7: the per-file sentiments the feature pipeline derives are exactly the
spec's formulas: `size_sentiment = -floor(log10(size))` (0 at 0),
`loc_sentiment` by the identical formula on `loc`, and
`frequency_sentiment = -log10(frequency)` applied to the float value itself
(continuous, not floored; 0 at 0), with `log10` kept abstract. -/
theorem c7_sentiment_derivation (log10f : FVal → FVal) (sfi : SourceFileInfo)
    (f : FileToEmbed) (h : mapSourceFileInfoToFile log10f sfi = some f) :
    f.data.size_sentiment = specIntSentiment sfi.statistics.size
    ∧ f.data.loc_sentiment = specIntSentiment sfi.statistics.loc
    ∧ f.data.frequency_sentiment = specFloatSentiment log10f sfi.statistics.frequency := by
  unfold mapSourceFileInfoToFile at h
  cases h1 : negativeSentimentForInt sfi.statistics.size with
  | none =>
    rw [h1] at h
    simp at h
  | some ss =>
    rw [h1] at h
    cases h2 : negativeSentimentForInt sfi.statistics.loc with
    | none =>
      rw [h2] at h
      simp at h
    | some ls =>
      rw [h2] at h
      simp only [Option.some.injEq] at h
      subst h
      exact ⟨negativeSentimentForInt_eq_spec _ _ h1, negativeSentimentForInt_eq_spec _ _ h2,
        negativeSentimentForFloat_eq_spec log10f _⟩

/-- Witness for C7 at a concrete record (zero size and loc, frequency 4,
with a concrete abstract logarithm). -/
theorem c7_sentiment_derivation_witness :
    fileToEmbedDemo.data.size_sentiment = specIntSentiment sfiSentimentDemo.statistics.size
    ∧ fileToEmbedDemo.data.loc_sentiment = specIntSentiment sfiSentimentDemo.statistics.loc
    ∧ fileToEmbedDemo.data.frequency_sentiment
        = specFloatSentiment log10fDemo sfiSentimentDemo.statistics.frequency :=
  c7_sentiment_derivation log10fDemo sfiSentimentDemo fileToEmbedDemo (by rfl)

theorem getSourceFileInfo_language_eq (env : MiningEnv) (rep : Report) (lt : LanguageType)
    (sfi : SourceFileInfo) (h : getSourceFileInfo env rep lt = .ok sfi) :
    sfi.language = some { lt with extensions := (pathExtension rep.name).toList } := by
  cases h1 : lookupContents env rep.name with
  | error e =>
    unfold getSourceFileInfo at h
    rw [h1] at h
    simp at h
  | ok contents =>
    rw [getSourceFileInfo_eq env rep lt contents h1] at h
    cases h2 : getFileContentsSize contents with
    | error e =>
      rw [h2] at h
      simp at h
    | ok sz =>
      rw [h2] at h
      cases h3 : getStatisticsForSourceFile env rep.name with
      | error e =>
        rw [h3] at h
        simp at h
      | ok stats0 =>
        rw [h3] at h
        simp only [Except.ok.injEq] at h
        subst h
        rfl

theorem buildReportInfos_language_stats_none (env : MiningEnv) (lt : LanguageType)
    (hlt : lt.statistics = none) :
    ∀ (reps : List Report) (sfis : List SourceFileInfo),
      buildReportInfos env lt reps = .ok sfis →
      ∀ sfi ∈ sfis, ∀ l, sfi.language = some l → l.statistics = none := by
  intro reps
  induction reps with
  | nil =>
    intro sfis h
    unfold buildReportInfos at h
    simp only [Except.ok.injEq] at h
    subst h
    intro sfi hmem
    simp at hmem
  | cons r rest ih =>
    intro sfis h
    unfold buildReportInfos at h
    cases h1 : getSourceFileInfo env r lt with
    | error e =>
      rw [h1] at h
      simp at h
    | ok sfi0 =>
      rw [h1] at h
      cases h2 : buildReportInfos env lt rest with
      | error e =>
        rw [h2] at h
        simp at h
      | ok more =>
        rw [h2] at h
        simp only [Except.ok.injEq] at h
        subst h
        intro sfi hmem l hl
        rcases List.mem_cons.mp hmem with rfl | hmem2
        · have := getSourceFileInfo_language_eq env r lt sfi h1
          rw [this] at hl
          simp only [Option.some.injEq] at hl
          subst hl
          exact hlt
        · exact ih more h2 sfi hmem2 l hl

theorem buildFileInfos_language_stats_none (env : MiningEnv) :
    ∀ (reps : List (String × List Report)) (sfis : List SourceFileInfo),
      buildFileInfos env reps = .ok sfis →
      ∀ sfi ∈ sfis, ∀ l, sfi.language = some l → l.statistics = none := by
  intro reps
  induction reps with
  | nil =>
    intro sfis h
    unfold buildFileInfos at h
    simp only [Except.ok.injEq] at h
    subst h
    intro sfi hmem
    simp at hmem
  | cons p rest ih =>
    intro sfis h
    unfold buildFileInfos at h
    cases h1 : buildReportInfos env (languageTypeNewFrom p.1) p.2 with
    | error e =>
      rw [h1] at h
      simp at h
    | ok these =>
      rw [h1] at h
      cases h2 : buildFileInfos env rest with
      | error e =>
        rw [h2] at h
        simp at h
      | ok more =>
        rw [h2] at h
        simp only [Except.ok.injEq] at h
        subst h
        intro sfi hmem l hl
        rcases List.mem_append.mp hmem with hmem1 | hmem2
        · exact buildReportInfos_language_stats_none env (languageTypeNewFrom p.1) rfl
            p.2 these h1 sfi hmem1 l hl
        · exact ih more h2 sfi hmem2 l hl

theorem foldl_predStep_all_none (langs : List LanguageType)
    (h : ∀ l ∈ langs, l.statistics = none) :
    ∀ acc, langs.foldl predStep acc = acc := by
  induction langs with
  | nil => intro acc; rfl
  | cons l rest ih =>
    intro acc
    have hl : l.statistics = none := h l (List.mem_cons_self l rest)
    have hrest : ∀ x ∈ rest, x.statistics = none := fun x hx => h x (List.mem_cons_of_mem l hx)
    simp only [List.foldl_cons, predStep, hl]
    exact ih hrest acc

/-- C10: whenever `RepositoryInfo::new` succeeds, `predominant_language` is
`Some` of the default (empty) `LanguageType`: every per-file language is
built from `LanguageType::new_from` with `statistics = None`, none is ever
given statistics before selection, so the selection loop never updates its
accumulator. -/
theorem c10_predominant_language_default (env : MiningEnv) (name : String)
    (perm : List String) (r : RepositoryInfo)
    (h : repositoryInfoNew env name perm = .ok (.ok r)) :
    r.predominant_language = some defaultLanguageType := by
  unfold repositoryInfoNew at h
  cases hsf : getSourceFileInfoForRepo env with
  | error e =>
    rw [hsf] at h
    simp at h
  | ok sfis =>
    rw [hsf] at h
    cases hgc : getGitContributors env perm with
    | panicked =>
      rw [hgc] at h
      simp at h
    | ok contribs =>
      rw [hgc] at h
      simp only [PanicOr.ok.injEq, Except.ok.injEq] at h
      subst h
      have hall : ∀ l ∈ sfis.filterMap (fun sfi => sfi.language), l.statistics = none := by
        intro l hl
        obtain ⟨sfi, hmem, hfl⟩ := List.mem_filterMap.mp hl
        exact buildFileInfos_language_stats_none env env.reports sfis hsf sfi hmem l hfl
      show some (getPredominantLanguageOfFiles sfis) = some defaultLanguageType
      unfold getPredominantLanguageOfFiles getPredominantLanguage
      rw [foldl_predStep_all_none _ hall predAcc0]
      rfl

/-- Witness for C10 at the concrete environment `envOk`. -/
theorem c10_predominant_language_default_witness :
    sampleRepo.predominant_language = some defaultLanguageType :=
  c10_predominant_language_default envOk "repo" ["alice"] sampleRepo (by rfl)

/-- C9 (amended): the serialized `RepositoryInfo` omits the `language` field
entirely when absent, never includes the raw file content (`source_file` is
skipped: the serialization is independent of it), and every other field is
always present (plain `Option` fields as null) — EXCEPT that
`LanguageType.statistics` is likewise omitted entirely when absent (see the
counterexample). -/
theorem c9_amended_serialization_shape (sfi : SourceFileInfo) (x : Option String)
    (lt : LanguageType) (s : Statistics) (c : Contributor) (r : RepositoryInfo) :
    objKeys (serializeSourceFileInfo sfi)
      = ["name", "relative_path"]
        ++ (match sfi.language with | none => [] | some _ => ["language"])
        ++ ["id_hash", "statistics"]
    ∧ serializeSourceFileInfo { sfi with source_file := x } = serializeSourceFileInfo sfi
    ∧ objKeys (serializeLanguageType lt)
      = ["name", "extensions"]
        ++ (match lt.statistics with | none => [] | some _ => ["statistics"])
    ∧ objKeys (serializeStatistics s) = ["size", "loc", "num_files", "num_commits", "frequency"]
    ∧ objKeys (serializeContributor c)
      = ["name", "last_contribution", "percentage_contribution", "statistics"]
    ∧ objKeys (serializeRepositoryInfo r)
      = ["name", "predominant_language", "statistics", "contributors", "source_files"] := by
  refine ⟨?_, rfl, ?_, rfl, rfl, rfl⟩
  · cases hl : sfi.language <;> simp [serializeSourceFileInfo, objKeys, hl]
  · cases hs : lt.statistics <;> simp [serializeLanguageType, objKeys, hs]

/-- Counterexample for C9: the `statistics` field of a serialized
`LanguageType` is conditionally omitted too — it is absent from the
`predominant_language` object of a really-serialized repository (whose
language records all carry `statistics = None`), yet present as soon as the
statistics are `Some`. -/
theorem c9_counterexample_statistics_omitted :
    ¬ ("statistics" ∈ objKeys ((objGet "predominant_language"
        (serializeRepositoryInfo sampleRepo)).getD .null))
    ∧ "statistics" ∈ objKeys (serializeLanguageType
        { defaultLanguageType with statistics := some statisticsNew }) := by
  exact ⟨by decide, by decide⟩

/-- C6 (amended): the ordered token sequence of the feature-preparation
pipeline does not depend on the contributor map's iteration order — two
mining-plus-embedding passes over the same environment produce the identical
token sequence whatever iteration orders their HashMaps happen to use.  (The
serialized document does depend on that order: see the counterexample.) -/
theorem c6_amended_token_determinism (log10f : FVal → FVal) (env : MiningEnv)
    (name : String) (o1 o2 : List String) :
    pipelineTokens log10f env name o1 = pipelineTokens log10f env name o2 := by
  unfold pipelineTokens repositoryInfoNew
  cases hsf : getSourceFileInfoForRepo env with
  | error e => simp
  | ok sfis =>
    cases hw : env.walk with
    | error e => simp [getGitContributors, hw]
    | ok commits =>
      cases hcf : contribFoldPanic commits [] with
      | panicked => simp [getGitContributors, hw, hcf]
      | ok m => simp [getGitContributors, hw, hcf, createRepositoryEmbeddingTokens]

/-- Counterexample for C6: two mining passes over the unchanged two-author
repository, whose contributor HashMaps iterate in the two different (both
legitimate) orders, serialize to different documents — the serialized output
is not byte-identical across runs. -/
theorem c6_counterexample_hash_order :
    List.Perm ["alice", "bob"] ((contribMap commitsTwoAuthors).map (fun e => e.1))
    ∧ List.Perm ["bob", "alice"] ((contribMap commitsTwoAuthors).map (fun e => e.1))
    ∧ minePassSerialized envTwoAuthors "r" ["alice", "bob"]
        ≠ minePassSerialized envTwoAuthors "r" ["bob", "alice"] := by
  refine ⟨by decide, by decide, ?_⟩
  intro h
  have hn := congrArg passNames h
  revert hn
  decide

theorem beats_iff (st : Statistics) (qst q : ℚ) (s : Int) (hf : st.frequency = .fin qst) :
    beats st (.fin q) s = true ↔ (q < qst ∨ (q = qst ∧ s < st.size)) := by
  simp only [beats, hf, fgt, fbeq, Bool.or_eq_true, Bool.and_eq_true, decide_eq_true_eq]
  constructor
  · rintro (h | ⟨h1, h2⟩)
    · exact Or.inl h
    · exact Or.inr ⟨h1.symm, h2⟩
  · rintro (h | ⟨h1, h2⟩)
    · exact Or.inl h
    · exact Or.inr ⟨h1.symm, h2⟩

theorem beats_false_iff (st : Statistics) (qst q : ℚ) (s : Int)
    (hf : st.frequency = .fin qst) :
    beats st (.fin q) s = false ↔ (qst < q ∨ (qst = q ∧ st.size ≤ s)) := by
  rw [← Bool.not_eq_true, beats_iff st qst q s hf]
  constructor
  · intro hn
    rcases lt_trichotomy qst q with h | h | h
    · exact Or.inl h
    · refine Or.inr ⟨h, ?_⟩
      by_contra hs
      exact hn (Or.inr ⟨h.symm, by omega⟩)
    · exact absurd (Or.inl h) hn
  · rintro (h | ⟨h1, h2⟩) (hc | ⟨hc1, hc2⟩)
    · exact absurd hc (by linarith)
    · exact absurd hc1 (by linarith)
    · exact absurd hc (by linarith)
    · omega

theorem predFold_invariant (ls : List LanguageType) :
    ∀ (acc : LanguageType × FVal × Int) (qa : ℚ),
      acc.2.1 = .fin qa →
      (∀ lt ∈ ls, statFinite lt = true) →
      (∃ qr, (ls.foldl predStep acc).2.1 = .fin qr
        ∧ (qa < qr ∨ (qa = qr ∧ acc.2.2 ≤ (ls.foldl predStep acc).2.2)))
      ∧ ((ls.foldl predStep acc) = acc
          ∨ ∃ lt ∈ ls, ∃ st, lt.statistics = some st
              ∧ (ls.foldl predStep acc).1 = lt
              ∧ (ls.foldl predStep acc).2.1 = st.frequency
              ∧ (ls.foldl predStep acc).2.2 = st.size)
      ∧ (∀ lt ∈ ls, ∀ st, lt.statistics = some st →
          beats st (ls.foldl predStep acc).2.1 (ls.foldl predStep acc).2.2 = false) := by
  induction ls with
  | nil =>
    intro acc qa hacc _hfin
    refine ⟨⟨qa, hacc, Or.inr ⟨rfl, le_refl _⟩⟩, Or.inl rfl, ?_⟩
    intro lt hmem
    simp at hmem
  | cons l rest ih =>
    intro acc qa hacc hfin
    have hfl : statFinite l = true := hfin l (List.mem_cons_self _ _)
    have hfrest : ∀ lt ∈ rest, statFinite lt = true :=
      fun lt h => hfin lt (List.mem_cons_of_mem _ h)
    rw [List.foldl_cons]
    cases hstat : l.statistics with
    | none =>
      have hstep : predStep acc l = acc := by simp [predStep, hstat]
      rw [hstep]
      obtain ⟨hA, hB, hC⟩ := ih acc qa hacc hfrest
      refine ⟨hA, ?_, ?_⟩
      · rcases hB with h | ⟨lt, hm, hrest2⟩
        · exact Or.inl h
        · exact Or.inr ⟨lt, List.mem_cons_of_mem _ hm, hrest2⟩
      · intro lt hm st hst
        rcases List.mem_cons.mp hm with rfl | hm2
        · rw [hstat] at hst
          cases hst
        · exact hC lt hm2 st hst
    | some st0 =>
      obtain ⟨q0, hq0⟩ := (fval_isFin_iff _).mp (by simpa [statFinite, hstat] using hfl)
      cases hb : beats st0 acc.2.1 acc.2.2 with
      | false =>
        have hstep : predStep acc l = acc := by simp [predStep, hstat, hb]
        rw [hstep]
        obtain ⟨⟨qr, hqr, hgrow⟩, hB, hC⟩ := ih acc qa hacc hfrest
        refine ⟨⟨qr, hqr, hgrow⟩, ?_, ?_⟩
        · rcases hB with h | ⟨lt, hm, hrest2⟩
          · exact Or.inl h
          · exact Or.inr ⟨lt, List.mem_cons_of_mem _ hm, hrest2⟩
        · intro lt hm st hst
          rcases List.mem_cons.mp hm with rfl | hm2
          · rw [hstat] at hst
            injection hst with hst
            subst hst
            rw [hacc] at hb
            have hble := (beats_false_iff st0 q0 qa acc.2.2 hq0).mp hb
            rw [hqr]
            apply (beats_false_iff st0 q0 qr _ hq0).mpr
            rcases hble with h1 | ⟨h1, h2⟩ <;> rcases hgrow with g1 | ⟨g1, g2⟩
            · exact Or.inl (by linarith)
            · exact Or.inl (by linarith [g1 ▸ h1])
            · exact Or.inl (by rw [h1]; exact g1)
            · exact Or.inr ⟨by rw [h1, g1], le_trans h2 g2⟩
          · exact hC lt hm2 st hst
      | true =>
        have hstep : predStep acc l = (l, st0.frequency, st0.size) := by
          simp [predStep, hstat, hb]
        rw [hstep]
        have hacc2 : (l, st0.frequency, st0.size).2.1 = .fin q0 := by simpa using hq0
        obtain ⟨⟨qr, hqr, hgrow⟩, hB, hC⟩ := ih (l, st0.frequency, st0.size) q0 hacc2 hfrest
        rw [hacc] at hb
        have hblt := (beats_iff st0 q0 qa acc.2.2 hq0).mp hb
        have hgrow2 : q0 < qr ∨ (q0 = qr ∧ st0.size
            ≤ (rest.foldl predStep (l, st0.frequency, st0.size)).2.2) := by
          simpa using hgrow
        refine ⟨⟨qr, hqr, ?_⟩, ?_, ?_⟩
        · rcases hblt with h1 | ⟨h1, h2⟩ <;> rcases hgrow2 with g1 | ⟨g1, g2⟩
          · exact Or.inl (by linarith)
          · exact Or.inl (by rw [← g1]; exact h1)
          · exact Or.inl (by rw [h1]; exact g1)
          · exact Or.inr ⟨by rw [h1, g1], le_trans (le_of_lt h2) g2⟩
        · rcases hB with h | ⟨lt, hm, st, hst, hr1, hr2, hr3⟩
          · refine Or.inr ⟨l, List.mem_cons_self _ _, st0, hstat, ?_, ?_, ?_⟩ <;>
              rw [h]
          · exact Or.inr ⟨lt, List.mem_cons_of_mem _ hm, st, hst, hr1, hr2, hr3⟩
        · intro lt hm st hst
          rcases List.mem_cons.mp hm with rfl | hm2
          · rw [hstat] at hst
            injection hst with hst
            subst hst
            rw [hqr]
            apply (beats_false_iff st0 q0 qr _ hq0).mpr
            rcases hgrow2 with g1 | ⟨g1, g2⟩
            · exact Or.inl g1
            · exact Or.inr ⟨g1, g2⟩
          · exact hC lt hm2 st hst

/-- C5 (amended): `get_predominant_language` never errors: it returns either
an element of the list or the default sentinel; no entry ranks strictly above
the returned trackers under the loop's own comparison (highest frequency,
ties broken by larger size); a non-default result carries exactly the winning
frequency and size; BUT the sentinel is compared against initial trackers
`(0.0, 0)`, so an entry with zero frequency and positive size also wins —
the default is NOT returned whenever no entry has positive frequency (see
the counterexample). -/
theorem c5_amended_predominant_language (languages : List LanguageType)
    (hfin : ∀ lt ∈ languages, statFinite lt = true) :
    (getPredominantLanguage languages = defaultLanguageType
      ∨ getPredominantLanguage languages ∈ languages)
    ∧ (∀ lt ∈ languages, ∀ st, lt.statistics = some st →
        beats st (languages.foldl predStep predAcc0).2.1
          (languages.foldl predStep predAcc0).2.2 = false)
    ∧ (getPredominantLanguage languages ≠ defaultLanguageType →
        ∃ st, (getPredominantLanguage languages).statistics = some st
          ∧ st.frequency = (languages.foldl predStep predAcc0).2.1
          ∧ st.size = (languages.foldl predStep predAcc0).2.2)
    ∧ (∀ lt ∈ languages, ∀ st, lt.statistics = some st →
        beats st (.fin 0) 0 = true →
        getPredominantLanguage languages ≠ defaultLanguageType) := by
  obtain ⟨hA, hB, hC⟩ := predFold_invariant languages predAcc0 0 rfl hfin
  refine ⟨?_, hC, ?_, ?_⟩
  · rcases hB with h | ⟨lt, hm, st, _hst, h1, _h2, _h3⟩
    · exact Or.inl (by unfold getPredominantLanguage; rw [h]; rfl)
    · exact Or.inr (by unfold getPredominantLanguage; rw [h1]; exact hm)
  · intro hne
    rcases hB with h | ⟨lt, hm, st, hst, h1, h2, h3⟩
    · exact absurd (by unfold getPredominantLanguage; rw [h]; rfl) hne
    · refine ⟨st, ?_, h2.symm, h3.symm⟩
      show (getPredominantLanguage languages).statistics = some st
      unfold getPredominantLanguage
      rw [h1]
      exact hst
  · intro lt hm st hst hbeat hdef
    rcases hB with h | ⟨lt2, _hm2, st2, hst2, h1, _h2, _h3⟩
    · have := hC lt hm st hst
      rw [h] at this
      have hz : beats st (.fin 0) 0 = false := this
      rw [hbeat] at hz
      cases hz
    · unfold getPredominantLanguage at hdef
      rw [h1] at hdef
      rw [hdef] at hst2
      cases hst2

/-- Counterexample for C5: a list whose only entry has frequency 0 (so no
entry has positive frequency) yet whose positive size makes the loop select
it — the empty/default sentinel is not returned. -/
theorem c5_counterexample_zero_frequency_entry :
    getPredominantLanguage [langZeroFreq] = langZeroFreq
    ∧ getPredominantLanguage [langZeroFreq] ≠ defaultLanguageType := by
  exact ⟨by decide, by decide⟩

/-- Witness for C5 (amended) at the 30/70 two-language list. -/
theorem c5_amended_predominant_language_witness :
    (getPredominantLanguage langsDemo = defaultLanguageType
      ∨ getPredominantLanguage langsDemo ∈ langsDemo)
    ∧ beats { size := 1, loc := 30, num_files := 1, num_commits := 0, frequency := .fin 30 }
        (langsDemo.foldl predStep predAcc0).2.1
        (langsDemo.foldl predStep predAcc0).2.2 = false
    ∧ getPredominantLanguage langsDemo ≠ defaultLanguageType :=
  ⟨(c5_amended_predominant_language langsDemo (by decide)).1,
   (c5_amended_predominant_language langsDemo (by decide)).2.1
     { name := "A", extensions := [], statistics :=
        some { size := 1, loc := 30, num_files := 1, num_commits := 0, frequency := .fin 30 } }
     (by decide) _ rfl,
   (c5_amended_predominant_language langsDemo (by decide)).2.2.2
     { name := "B", extensions := [], statistics :=
        some { size := 9, loc := 70, num_files := 1, num_commits := 0, frequency := .fin 70 } }
     (by decide) _ rfl (by decide)⟩
